import Mathlib

/-!
Verification development for the `genshin.py` HTTP client
(`src/genshin/client.py`) and its pagination layer.

The Python code is shallowly embedded: each method of `GenshinClient`
becomes a pure Lean function.  Network I/O is made explicit by passing
the outcome of the underlying HTTP call (a `Fetch` value) as an
argument, and by reporting in the result whether the network call was
actually issued.  Mutable state (the response cache) is passed in and
returned explicitly.  Python truthiness (`if cache:`, `lang or
self.lang`) is modelled exactly where the source relies on it.
-/

namespace Genshin

/-- A cookie stored in the aiohttp session cookie jar: a key/value pair. -/
structure Cookie where
  key : String
  value : String
  deriving DecidableEq, Repr

/-- The state of a `GenshinClient` relevant to the claims: the session
cookie jar (in insertion order), the client-level authkey
(`self.authkey`, `None` allowed) and the client language (`self.lang`,
always a valid language string by the `__init__` assertion). -/
structure ClientState where
  jar : List Cookie
  authkey : Option String
  lang : String
  deriving DecidableEq, Repr

/-- Python `x or y` for an optional string `x`: `None` and the empty
string are falsy, so both fall through to `y`. -/
def pyOr (x : Option String) (y : String) : String :=
  match x with
  | none => y
  | some s => if s = "" then y else s

/-- The `cookies` property body: a dict comprehension over the session
cookie jar, `{cookie.key: cookie.value for cookie in
self.session.cookie_jar}`. -/
def cookies (c : ClientState) : List (String × String) :=
  c.jar.map (fun ck => (ck.key, ck.value))

/-- The value of the Python expression `self.cookies` as an optional
value, so the guard `self.cookies is None` can be written as a `match`.
The property body is a dict comprehension, which always evaluates to a
dict object, never to `None`, hence the result is always `some`. -/
def cookiesOpt (c : ClientState) : Option (List (String × String)) :=
  some (cookies c)

/-- Auxiliary decimal-digit accumulator for `pyInt`. -/
def pyIntAux : List Char → Nat → Option Nat
  | [], acc => some acc
  | ch :: rest, acc =>
    if 48 ≤ ch.toNat ∧ ch.toNat ≤ 57 then
      pyIntAux rest (acc * 10 + (ch.toNat - 48))
    else none

/-- Python `int(...)` applied to a cookie value: parses an optionally
negated decimal string; any other input makes `int` raise, modelled as
`none`. -/
def pyInt (s : String) : Option Int :=
  match s.data with
  | [] => none
  | '-' :: rest =>
    if rest.isEmpty then none
    else (pyIntAux rest 0).map (fun n => -(n : Int))
  | cs => (pyIntAux cs 0).map (fun n => (n : Int))

/-- The `hoyolab_uid` property loops over the cookie jar and returns
`int(cookie.value)` for the first cookie whose key is `ltuid` or
`account_id`; falling off the loop returns `None`.  `int(...)` on a
non-numeric string raises, which the embedding reports as
`Except.error`. -/
def hoyolab_uid (c : ClientState) : Except String (Option Int) :=
  match c.jar.find? (fun ck => ck.key == "ltuid" || ck.key == "account_id") with
  | some ck =>
    match pyInt ck.value with
    | some n => .ok (some n)
    | none => .error "invalid literal for int()"
  | none => .ok none

/-- The parsed JSON body of a remote response: the envelope
`{retcode, message, data}`. -/
structure Envelope (α : Type) where
  retcode : Int
  message : String
  data : α
  deriving DecidableEq, Repr

/-- Errors a request can surface.  `noCookies` and `noAuthkey` are the
`Exception("No cookies provided")` / `Exception("No authkey provided")`
raises; `remote` is the `Exception(f"{retcode} - {message}")` raise of
`request`, carrying the remote retcode and message verbatim;
`transport` is an aiohttp-level failure (network error, timeout,
malformed body) raised while performing the HTTP call. -/
inductive GError where
  | noCookies
  | noAuthkey
  | remote (retcode : Int) (message : String)
  | transport (msg : String)
  deriving DecidableEq, Repr

/-- The outcome of the underlying HTTP call performed inside
`GenshinClient.request`: either a transport-level failure or a
well-formed envelope. -/
inductive Fetch (α : Type) where
  | fail (msg : String)
  | env (e : Envelope α)
  deriving DecidableEq, Repr

/-- `GenshinClient.request`: perform the HTTP call; on a well-formed
envelope, return `data` when `retcode == 0` and otherwise raise
`Exception(f"{retcode} - {message}")`. -/
def request {α : Type} (f : Fetch α) : Except GError α :=
  match f with
  | .fail m => .error (.transport m)
  | .env e =>
    if e.retcode = 0 then .ok e.data
    else .error (.remote e.retcode e.message)

/-- One component of a caller-supplied cache tuple (tuples such as
`("user", uid)` mix strings and integers). -/
inductive KeyComp where
  | str (s : String)
  | int (n : Int)
  deriving DecidableEq, Repr

/-- A cache key: a Python tuple of components, compared structurally. -/
abbrev CacheKey := List KeyComp

/-- Lookup in the client cache mapping (`cache in self.cache` /
`self.cache[cache]`), modelled as an association list with structural
key equality. -/
def alistLookup {α : Type} (m : List (CacheKey × α)) (k : CacheKey) : Option α :=
  match m with
  | [] => none
  | (k', v) :: rest => if k' = k then some v else alistLookup rest k

/-- Store into the client cache mapping (`self.cache[cache] = data`):
replaces an existing entry for the key, otherwise appends. -/
def alistInsert {α : Type} (m : List (CacheKey × α)) (k : CacheKey) (v : α) :
    List (CacheKey × α) :=
  match m with
  | [] => [(k, v)]
  | (k', v') :: rest =>
    if k' = k then (k, v) :: rest else (k', v') :: alistInsert rest k v

/-- Python truthiness of the (possibly absent) cache tuple: `None` and
the empty tuple are falsy. -/
def keyTruthy : Option CacheKey → Bool
  | none => false
  | some ks => !ks.isEmpty

/-- Python truthiness of `self.cache`: `None` and an empty mapping are
falsy. -/
def mapTruthy {α : Type} : Option (List (CacheKey × α)) → Bool
  | none => false
  | some m => !m.isEmpty

/-- The first two lines of `request_game_record`: `if cache: cache =
cache + (lang or self.lang,)`.  A `None` or empty tuple is left
unchanged; a non-empty tuple is extended with the effective language as
its last component. -/
def effectiveKey (c : ClientState) (langArg : Option String)
    (cacheArg : Option CacheKey) : Option CacheKey :=
  match cacheArg with
  | none => none
  | some ks =>
    if ks.isEmpty then some ks
    else some (ks ++ [KeyComp.str (pyOr langArg c.lang)])

/-- The result of a `request_game_record` call: the returned value or
raised error, the client cache mapping after the call, and whether the
underlying HTTP request was issued. -/
structure GROut (α : Type) where
  result : Except GError α
  cache : Option (List (CacheKey × α))
  networkCalled : Bool

/-- The cache-hit test of `request_game_record`: `if cache and
self.cache and cache in self.cache: return self.cache[cache]` — the
stored value when the (truthy) effective key is present in the (truthy)
client cache mapping. -/
def grHit {α : Type} (c : ClientState) (cacheMap : Option (List (CacheKey × α)))
    (langArg : Option String) (cacheArg : Option CacheKey) : Option α :=
  let key := effectiveKey c langArg cacheArg
  if keyTruthy key && mapTruthy cacheMap then
    match key, cacheMap with
    | some ks, some m => alistLookup m ks
    | _, _ => none
  else none

/-- `GenshinClient.request_game_record`: extend the cache tuple with the
effective language; return the stored value on a cache hit; guard
`self.cookies is None`; otherwise perform the HTTP request and, when a
truthy key is present and `self.cache is not None`, store the parsed
data under the key before returning it. -/
def request_game_record {α : Type} (c : ClientState)
    (cacheMap : Option (List (CacheKey × α))) (langArg : Option String)
    (cacheArg : Option CacheKey) (f : Fetch α) : GROut α :=
  let key := effectiveKey c langArg cacheArg
  match grHit c cacheMap langArg cacheArg with
  | some v => ⟨.ok v, cacheMap, false⟩
  | none =>
    match cookiesOpt c with
    | none => ⟨.error .noCookies, cacheMap, false⟩
    | some _ =>
      match request f with
      | .error e => ⟨.error e, cacheMap, true⟩
      | .ok data =>
        let cacheMap' :=
          if keyTruthy key && cacheMap.isSome then
            match key, cacheMap with
            | some ks, some m => some (alistInsert m ks data)
            | _, cm => cm
          else cacheMap
        ⟨.ok data, cacheMap', true⟩

/-- `GenshinClient.request_daily_reward`: guard `self.cookies is None`,
then perform the HTTP request.  The result pairs the returned value or
error with whether the HTTP request was issued. -/
def request_daily_reward {α : Type} (c : ClientState) (f : Fetch α) :
    Except GError α × Bool :=
  match cookiesOpt c with
  | none => (.error .noCookies, false)
  | some _ => (request f, true)

/-- `GenshinClient.request_gacha_info`: after filling params, raise
`Exception("No authkey provided")` when both the per-call authkey and
`self.authkey` are `None`, before `self.request` is reached; otherwise
perform the HTTP request. -/
def request_gacha_info {α : Type} (c : ClientState) (authkeyArg : Option String)
    (f : Fetch α) : Except GError α × Bool :=
  if authkeyArg.isNone && c.authkey.isNone then (.error .noAuthkey, false)
  else (request f, true)

/-- `GenshinClient.request_transaction`: same authkey guard as
`request_gacha_info`, raised before `self.request` is reached. -/
def request_transaction {α : Type} (c : ClientState) (authkeyArg : Option String)
    (f : Fetch α) : Except GError α × Bool :=
  if authkeyArg.isNone && c.authkey.isNone then (.error .noAuthkey, false)
  else (request f, true)

/-- A genshin account as returned by `accounts()`: the fields
`redeem_code` inspects. -/
structure Account where
  uid : Nat
  level : Nat
  deriving DecidableEq, Repr

/-- An observable event of the `redeem_code` workflow: awaiting
`asyncio.sleep(seconds)` or submitting the code for one uid (the
recursive `redeem_code(code, account.uid)` call). -/
inductive RedeemEvent where
  | sleep (seconds : Nat)
  | submit (uid : Nat)
  deriving DecidableEq, Repr

/-- The body of the `for i, account in enumerate(accounts)` loop in
`redeem_code`: `if i: await asyncio.sleep(5)` then submit for this
account's uid, then continue with the next account.  The events are
produced strictly in this order (each `await` completes before the next
statement runs). -/
def redeemLoop : Nat → List Account → List RedeemEvent
  | _, [] => []
  | i, a :: rest =>
    (if i = 0 then [RedeemEvent.submit a.uid]
     else [RedeemEvent.sleep 5, RedeemEvent.submit a.uid]) ++ redeemLoop (i + 1) rest

/-- `GenshinClient.redeem_code` with `uid=None`: fetch the accounts,
keep those with `a.level >= 10`, and run the enumerate loop over them.
The result is the sequential trace of awaited events. -/
def redeem_code_all (accounts : List Account) : List RedeemEvent :=
  redeemLoop 0 (accounts.filter (fun a => 10 ≤ a.level))

/-- Specification-shaped schedule for comparison: submit for each uid in
order, with a 5-second delay before every submission except the
first. -/
def specSchedule : List Nat → List RedeemEvent
  | [] => []
  | u :: rest => RedeemEvent.submit u ::
      (rest.map (fun v => [RedeemEvent.sleep 5, RedeemEvent.submit v])).flatten

/-- The construction parameters handed to a paginator by `wish_history`
and `transaction_log`: the caller's language, authkey, limit and
`end_id` cutoff. -/
structure PagCfg where
  lang : Option String
  authkey : Option String
  limit : Option Nat
  end_id : Nat
  deriving DecidableEq, Repr

/-- The paginator returned by `wish_history`: either
`MergedWishHistory` (all banners) or `WishHistory` for one banner
type. -/
inductive WishPag where
  | merged (cfg : PagCfg)
  | single (banner_type : Nat) (cfg : PagCfg)
  deriving DecidableEq, Repr

/-- `GenshinClient.wish_history`: `banner_type is None` selects
`MergedWishHistory`, otherwise `WishHistory` for that banner type; both
receive the caller's lang, authkey, limit and end_id. -/
def wish_history (banner_type : Option Nat) (limit : Option Nat)
    (lang : Option String) (authkey : Option String) (end_id : Nat) : WishPag :=
  match banner_type with
  | none => .merged ⟨lang, authkey, limit, end_id⟩
  | some b => .single b ⟨lang, authkey, limit, end_id⟩

/-- The transaction kinds accepted by `transaction_log`. -/
inductive TransKind where
  | primogem | crystal | resin | artifact | weapon
  deriving DecidableEq, Repr

/-- The paginator returned by `transaction_log`: either
`MergedTransactions` (all kinds) or `Transactions` for one kind. -/
inductive TransPag where
  | merged (cfg : PagCfg)
  | single (kind : TransKind) (cfg : PagCfg)
  deriving DecidableEq, Repr

/-- `GenshinClient.transaction_log`: `kind is None` selects
`MergedTransactions`, otherwise `Transactions` for that kind; both
receive the caller's lang, authkey, limit and end_id. -/
def transaction_log (kind : Option TransKind) (limit : Option Nat)
    (lang : Option String) (authkey : Option String) (end_id : Nat) : TransPag :=
  match kind with
  | none => .merged ⟨lang, authkey, limit, end_id⟩
  | some k => .single k ⟨lang, authkey, limit, end_id⟩

/-- Modelled from the spec: the state of the `permanent_cache`
decorator from `genshin.utils` (the module is not in `src/`; only its
use sites `@utils.permanent_cache("lang")` on `get_banner_types` and
`_get_transaction_reasons` are).  Per spec sections 4.2 and 9, the
permanent policy memoizes forever, keyed by a fixed projection of the
call parameters — here the `lang` argument only.  `entries` maps a lang
key to the stored value; `calls` counts invocations of the underlying
compute function. -/
structure PermCache (α : Type) where
  entries : List (Option String × α)
  calls : Nat

/-- Lookup in the permanent cache by lang key. -/
def permLookup {α : Type} (m : List (Option String × α)) (k : Option String) :
    Option α :=
  match m with
  | [] => none
  | (k', v) :: rest => if k' = k then some v else permLookup rest k

/-- Modelled from the spec: `getOrCompute(key, compute)` of the
permanent cache — if the key is present return the stored value without
invoking `compute`; otherwise invoke `compute` (its results are given
as a sequence indexed by invocation count, so a second invocation may
differ), store the result and return it. -/
def permGetOrCompute {α : Type} (st : PermCache α) (key : Option String)
    (compute : Nat → α) : α × PermCache α :=
  match permLookup st.entries key with
  | some v => (v, st)
  | none =>
    let v := compute st.calls
    (v, ⟨(key, v) :: st.entries, st.calls + 1⟩)

/-- `GenshinClient.get_banner_types`, decorated
`@utils.permanent_cache("lang")`: the cache key is the `lang` argument
only; `authkeyArg` is passed to the underlying fetch but is outside the
key projection. -/
def get_banner_types {α : Type} (st : PermCache α) (langArg : Option String)
    (authkeyArg : Option String) (fetch : Nat → α) : α × PermCache α :=
  permGetOrCompute st langArg fetch

/-- `GenshinClient._get_transaction_reasons`, decorated
`@utils.permanent_cache("lang")`: the cache key is the required `lang`
argument. -/
def get_transaction_reasons {α : Type} (st : PermCache α) (lang : String)
    (fetch : Nat → α) : α × PermCache α :=
  permGetOrCompute st (some lang) fetch

/-- An item of one category feed: timestamp (second resolution, not
unique) and remote-assigned id. -/
structure FeedItem where
  ts : Nat
  id : Nat
  deriving DecidableEq, Repr

/-- Modelled from the spec: the tie-break comparison of the k-way merge
in `MergedWishHistory` / `MergedTransactions` (module
`genshin.paginator`, not in `src/`).  Per spec section 4.5, the merge
selects the buffer head with the largest timestamp, ties broken by
largest id, further ties by the stable category-priority order fixed at
construction.  `beats b a` holds when candidate `b` is strictly
preferred over the currently selected `a`; on a full tie the earlier
category (which was selected first) is kept. -/
def beats (b a : FeedItem) : Bool :=
  a.ts < b.ts || (a.ts == b.ts && a.id < b.id)

/-- The current buffer heads of the categories, paired with their
category index (categories in construction order, starting at `i`).
Exhausted categories (empty buffer) do not participate. -/
def headsIdx : List (List FeedItem) → Nat → List (Nat × FeedItem)
  | [], _ => []
  | [] :: fs, i => headsIdx fs (i + 1)
  | (a :: _) :: fs, i => (i, a) :: headsIdx fs (i + 1)

/-- Select the best buffer head under `beats`, keeping the
earlier-category candidate on a full tie. -/
def selectBest : List (Nat × FeedItem) → Option (Nat × FeedItem)
  | [] => none
  | (i, a) :: rest =>
    match selectBest rest with
    | none => some (i, a)
    | some (j, b) => if beats b a then some (j, b) else some (i, a)

/-- Pop the head of category `i`'s buffer (the category whose item was
just yielded; its paginator refills the buffer lazily, which the model
represents by keeping the whole remaining feed as the buffer). -/
def popAt : List (List FeedItem) → Nat → List (List FeedItem)
  | [], _ => []
  | f :: fs, 0 => f.tail :: fs
  | f :: fs, n + 1 => f :: popAt fs n

/-- Modelled from the spec: the streaming k-way merge loop of the merge
paginator.  Each step selects, among the non-exhausted categories, the
head with the largest timestamp (ties by largest id, then earliest
category), yields it and pops it from its category.  `fuel` bounds the
number of steps; `mergeFeeds` supplies enough fuel to drain every
feed. -/
def mergeAux : Nat → List (List FeedItem) → List FeedItem
  | 0, _ => []
  | fuel + 1, feeds =>
    match selectBest (headsIdx feeds 0) with
    | none => []
    | some (i, a) => a :: mergeAux fuel (popAt feeds i)

/-- Modelled from the spec: the full merged sequence produced by
`MergedWishHistory` / `MergedTransactions` over the given category
feeds (each feed listed newest-first, in construction-time category
order), with no limit and no `end_id` cutoff. -/
def mergeFeeds (feeds : List (List FeedItem)) : List FeedItem :=
  mergeAux (feeds.map List.length).sum feeds

/-- A feed is non-increasing in timestamp: every later item's timestamp
is at most every earlier item's. -/
def NonIncTs (l : List FeedItem) : Prop :=
  List.Pairwise (fun a b => b.ts ≤ a.ts) l

instance (l : List FeedItem) : Decidable (NonIncTs l) := by
  unfold NonIncTs
  exact List.instDecidablePairwise l

theorem beats_le {b a : FeedItem} (h : beats b a = true) : a.ts ≤ b.ts := by
  simp only [beats, Bool.or_eq_true, Bool.and_eq_true, decide_eq_true_eq, beq_iff_eq] at h
  rcases h with h | ⟨h, _⟩
  · exact Nat.le_of_lt h
  · exact Nat.le_of_eq h

theorem beats_false_le {b a : FeedItem} (h : beats b a = false) : b.ts ≤ a.ts := by
  simp only [beats, Bool.or_eq_false_iff, Bool.and_eq_false_iff, decide_eq_false_iff_not] at h
  exact Nat.le_of_not_lt h.1

theorem selectBest_cons_none (i : Nat) (a : FeedItem) (rest : List (Nat × FeedItem))
    (hrest : selectBest rest = none) : selectBest ((i, a) :: rest) = some (i, a) := by
  show (match selectBest rest with
        | none => some (i, a)
        | some (j, b) => if beats b a then some (j, b) else some (i, a)) = some (i, a)
  rw [hrest]

theorem selectBest_cons_some (i : Nat) (a : FeedItem) (rest : List (Nat × FeedItem))
    (j : Nat) (b : FeedItem) (hrest : selectBest rest = some (j, b)) :
    selectBest ((i, a) :: rest) =
      if beats b a then some (j, b) else some (i, a) := by
  show (match selectBest rest with
        | none => some (i, a)
        | some (j, b) => if beats b a then some (j, b) else some (i, a)) = _
  rw [hrest]

theorem selectBest_cons_ne_none (x : Nat × FeedItem) (l : List (Nat × FeedItem)) :
    selectBest (x :: l) ≠ none := by
  obtain ⟨i, a⟩ := x
  cases hrest : selectBest l with
  | none => rw [selectBest_cons_none i a l hrest]; simp
  | some q =>
    obtain ⟨j, b⟩ := q
    rw [selectBest_cons_some i a l j b hrest]
    split <;> simp

theorem selectBest_spec : ∀ (l : List (Nat × FeedItem)) (p : Nat × FeedItem),
    selectBest l = some p → p ∈ l ∧ ∀ q ∈ l, q.2.ts ≤ p.2.ts := by
  intro l
  induction l with
  | nil => intro p h; simp [selectBest] at h
  | cons x rest ih =>
    intro p h
    obtain ⟨i, a⟩ := x
    cases hrest : selectBest rest with
    | none =>
      rw [selectBest_cons_none i a rest hrest] at h
      obtain rfl : ((i : Nat), a) = p := Option.some_inj.mp h
      cases rest with
      | nil =>
        refine ⟨List.mem_cons_self _ _, ?_⟩
        intro q hq
        rcases List.mem_cons.mp hq with rfl | hq
        · exact Nat.le_refl _
        · simp at hq
      | cons y ys => exact absurd hrest (selectBest_cons_ne_none y ys)
    | some q =>
      obtain ⟨j, b⟩ := q
      rw [selectBest_cons_some i a rest j b hrest] at h
      obtain ⟨hmem, hdom⟩ := ih (j, b) hrest
      by_cases hb : beats b a = true
      · rw [if_pos hb] at h
        obtain rfl : ((j : Nat), b) = p := Option.some_inj.mp h
        refine ⟨List.mem_cons_of_mem _ hmem, ?_⟩
        intro r hr
        rcases List.mem_cons.mp hr with rfl | hr
        · exact beats_le hb
        · exact hdom r hr
      · rw [if_neg (by simp [hb])] at h
        obtain rfl : ((i : Nat), a) = p := Option.some_inj.mp h
        refine ⟨List.mem_cons_self _ _, ?_⟩
        intro r hr
        rcases List.mem_cons.mp hr with rfl | hr
        · exact Nat.le_refl _
        · exact Nat.le_trans (hdom r hr) (beats_false_le (Bool.eq_false_iff.mpr hb))

theorem headsIdx_mem : ∀ (feeds : List (List FeedItem)) (i j : Nat) (b : FeedItem),
    (j, b) ∈ headsIdx feeds i → b ∈ feeds.flatten := by
  intro feeds
  induction feeds with
  | nil => intro i j b h; simp [headsIdx] at h
  | cons f fs ih =>
    intro i j b h
    cases f with
    | nil =>
      have h' : (j, b) ∈ headsIdx fs (i + 1) := h
      rw [List.flatten_cons]
      exact List.mem_append_right _ (ih (i + 1) j b h')
    | cons a t =>
      have h' : (j, b) ∈ (i, a) :: headsIdx fs (i + 1) := h
      rw [List.flatten_cons]
      rcases List.mem_cons.mp h' with heq | h''
      · have hba : b = a := congrArg Prod.snd heq
        rw [hba]
        exact List.mem_append_left _ (List.mem_cons_self a t)
      · exact List.mem_append_right _ (ih (i + 1) j b h'')

theorem headsIdx_head : ∀ (feeds : List (List FeedItem)) (i : Nat)
    (a : FeedItem) (t : List FeedItem), (a :: t) ∈ feeds →
    ∃ j, (j, a) ∈ headsIdx feeds i := by
  intro feeds
  induction feeds with
  | nil => intro i a t hmem; simp at hmem
  | cons f fs ih =>
    intro i a t hmem
    cases f with
    | nil =>
      have hmem' : (a :: t) ∈ fs := by
        rcases List.mem_cons.mp hmem with heq | h
        · exact absurd heq (by simp)
        · exact h
      obtain ⟨j, hj⟩ := ih (i + 1) a t hmem'
      exact ⟨j, hj⟩
    | cons b u =>
      rcases List.mem_cons.mp hmem with heq | h
      · have hab : a = b := by injection heq
        refine ⟨i, ?_⟩
        have : ((i : Nat), a) = (i, b) := by rw [hab]
        rw [this]
        exact List.mem_cons_self _ _
      · obtain ⟨j, hj⟩ := ih (i + 1) a t h
        exact ⟨j, List.mem_cons_of_mem _ hj⟩

theorem popAt_flatten_subset : ∀ (feeds : List (List FeedItem)) (i : Nat)
    (x : FeedItem), x ∈ (popAt feeds i).flatten → x ∈ feeds.flatten := by
  intro feeds
  induction feeds with
  | nil => intro i x h; simp [popAt] at h
  | cons f fs ih =>
    intro i x h
    cases i with
    | zero =>
      simp only [popAt, List.flatten_cons, List.mem_append] at h ⊢
      rcases h with h | h
      · exact Or.inl (List.tail_subset f h)
      · exact Or.inr h
    | succ n =>
      simp only [popAt, List.flatten_cons, List.mem_append] at h ⊢
      rcases h with h | h
      · exact Or.inl h
      · exact Or.inr (ih n x h)

theorem popAt_nonInc : ∀ (feeds : List (List FeedItem)) (i : Nat),
    (∀ f ∈ feeds, NonIncTs f) → ∀ g ∈ popAt feeds i, NonIncTs g := by
  intro feeds
  induction feeds with
  | nil => intro i _ g hg; simp [popAt] at hg
  | cons f fs ih =>
    intro i hall g hg
    cases i with
    | zero =>
      rcases List.mem_cons.mp hg with rfl | hg
      · exact (hall f (List.mem_cons_self _ _)).sublist (List.tail_sublist f)
      · exact hall g (List.mem_cons_of_mem _ hg)
    | succ n =>
      rcases List.mem_cons.mp hg with rfl | hg
      · exact hall g (List.mem_cons_self _ _)
      · exact ih n (fun f hf => hall f (List.mem_cons_of_mem _ hf)) g hg

theorem nonInc_head_dom {h : FeedItem} {t : List FeedItem}
    (hni : NonIncTs (h :: t)) : ∀ x ∈ h :: t, x.ts ≤ h.ts := by
  intro x hx
  rcases List.mem_cons.mp hx with rfl | hx
  · exact Nat.le_refl _
  · exact (List.pairwise_cons.mp hni).1 x hx

theorem selected_dominates (feeds : List (List FeedItem))
    (hall : ∀ f ∈ feeds, NonIncTs f) (i : Nat) (a : FeedItem)
    (hsel : selectBest (headsIdx feeds 0) = some (i, a)) :
    ∀ x ∈ feeds.flatten, x.ts ≤ a.ts := by
  intro x hx
  obtain ⟨f, hf, hxf⟩ := List.mem_flatten.mp hx
  cases f with
  | nil => simp at hxf
  | cons h t =>
    obtain ⟨j, hj⟩ := headsIdx_head feeds 0 h t hf
    have hdom := (selectBest_spec _ _ hsel).2 (j, h) hj
    exact Nat.le_trans (nonInc_head_dom (hall _ hf) x hxf) hdom

theorem mergeAux_subset : ∀ (fuel : Nat) (feeds : List (List FeedItem))
    (x : FeedItem), x ∈ mergeAux fuel feeds → x ∈ feeds.flatten := by
  intro fuel
  induction fuel with
  | zero => intro feeds x h; simp [mergeAux] at h
  | succ n ih =>
    intro feeds x h
    rw [show mergeAux (n + 1) feeds =
        (match selectBest (headsIdx feeds 0) with
         | none => []
         | some (i, a) => a :: mergeAux n (popAt feeds i)) from rfl] at h
    cases hsel : selectBest (headsIdx feeds 0) with
    | none => rw [hsel] at h; simp at h
    | some p =>
      rw [hsel] at h
      obtain ⟨i, a⟩ := p
      rcases List.mem_cons.mp h with rfl | h
      · exact headsIdx_mem feeds 0 i x ((selectBest_spec _ _ hsel).1)
      · exact popAt_flatten_subset feeds i x (ih (popAt feeds i) x h)

theorem mergeAux_nonInc : ∀ (fuel : Nat) (feeds : List (List FeedItem)),
    (∀ f ∈ feeds, NonIncTs f) → NonIncTs (mergeAux fuel feeds) := by
  intro fuel
  induction fuel with
  | zero => intro feeds _; exact List.Pairwise.nil
  | succ n ih =>
    intro feeds hall
    rw [show mergeAux (n + 1) feeds =
        (match selectBest (headsIdx feeds 0) with
         | none => []
         | some (i, a) => a :: mergeAux n (popAt feeds i)) from rfl]
    cases hsel : selectBest (headsIdx feeds 0) with
    | none => exact List.Pairwise.nil
    | some p =>
      obtain ⟨i, a⟩ := p
      refine List.pairwise_cons.mpr ⟨?_, ih (popAt feeds i) (popAt_nonInc feeds i hall)⟩
      intro x hx
      exact selected_dominates feeds hall i a hsel x
        (popAt_flatten_subset feeds i x (mergeAux_subset n (popAt feeds i) x hx))

theorem append_singleton_isEmpty (ks : CacheKey) (x : KeyComp) :
    (ks ++ [x]).isEmpty = false := by
  cases ks <;> rfl

theorem alistLookup_insert_self {α : Type} (m : List (CacheKey × α)) (k : CacheKey)
    (v : α) : alistLookup (alistInsert m k v) k = some v := by
  induction m with
  | nil => simp [alistInsert, alistLookup]
  | cons p r ih =>
    obtain ⟨k2, v2⟩ := p
    by_cases h : k2 = k
    · simp [alistInsert, alistLookup, h]
    · simp [alistInsert, alistLookup, h, ih]

theorem alistLookup_insert_ne {α : Type} (m : List (CacheKey × α)) (k1 k2 : CacheKey)
    (v : α) (h : k1 ≠ k2) :
    alistLookup (alistInsert m k1 v) k2 = alistLookup m k2 := by
  induction m with
  | nil => simp [alistInsert, alistLookup, h]
  | cons p r ih =>
    obtain ⟨k3, v3⟩ := p
    by_cases h3 : k3 = k1
    · simp [alistInsert, alistLookup, h3, h]
    · simp [alistInsert, alistLookup, h3, ih]

theorem isEmpty_false_of_ne_nil {ks : CacheKey} (hks : ks ≠ []) :
    ks.isEmpty = false := by
  cases ks with
  | nil => exact absurd rfl hks
  | cons a t => rfl

theorem grHit_eval {α : Type} (c : ClientState) (m : List (CacheKey × α))
    (ks : CacheKey) (langArg : Option String) (hks : ks ≠ []) :
    grHit c (some m) langArg (some ks) =
      alistLookup m (ks ++ [KeyComp.str (pyOr langArg c.lang)]) := by
  have hne := isEmpty_false_of_ne_nil hks
  cases m with
  | nil =>
    simp [grHit, effectiveKey, hne, keyTruthy, mapTruthy, append_singleton_isEmpty,
      alistLookup]
  | cons p r =>
    simp [grHit, effectiveKey, hne, keyTruthy, mapTruthy, append_singleton_isEmpty]

theorem redeemLoop_pos : ∀ (l : List Account) (i : Nat),
    redeemLoop (i + 1) l =
      (l.map (fun a => [RedeemEvent.sleep 5, RedeemEvent.submit a.uid])).flatten := by
  intro l
  induction l with
  | nil => intro i; rfl
  | cons a rest ih =>
    intro i
    simp only [redeemLoop, List.map_cons, List.flatten_cons, Nat.succ_ne_zero, if_neg,
      Nat.add_eq_zero]
    rw [ih (i + 1)]
    simp

theorem chunk_submits (us : List Nat) :
    ((us.map (fun v => [RedeemEvent.sleep 5, RedeemEvent.submit v])).flatten).filterMap
      (fun e => match e with
       | RedeemEvent.submit u => some u
       | RedeemEvent.sleep _ => none) = us := by
  induction us with
  | nil => rfl
  | cons v vs ih =>
    rw [List.map_cons, List.flatten_cons, List.filterMap_append, ih]
    rfl

theorem specSchedule_submits (us : List Nat) :
    (specSchedule us).filterMap
      (fun e => match e with
       | RedeemEvent.submit u => some u
       | RedeemEvent.sleep _ => none) = us := by
  cases us with
  | nil => rfl
  | cons u rest => exact congrArg (List.cons u) (chunk_submits rest)

/-- C1: for feeds that are each non-increasing in timestamp, the merged
sequence of the merge paginator is globally non-increasing in
timestamp; the tie-break is a fixed deterministic rule (largest id
first, independent of category arrangement); and merging feeds with
timestamps [10,8,5] and [9,7,6] yields [10,9,8,7,6,5]. -/
theorem claimC1_merge_order :
    (∀ feeds : List (List FeedItem), (∀ f ∈ feeds, NonIncTs f) →
      NonIncTs (mergeFeeds feeds)) ∧
    mergeFeeds [[⟨10, 30⟩, ⟨8, 28⟩, ⟨5, 25⟩], [⟨9, 29⟩, ⟨7, 27⟩, ⟨6, 26⟩]] =
      [⟨10, 30⟩, ⟨9, 29⟩, ⟨8, 28⟩, ⟨7, 27⟩, ⟨6, 26⟩, ⟨5, 25⟩] ∧
    mergeFeeds [[⟨100, 1⟩], [⟨100, 2⟩]] = [⟨100, 2⟩, ⟨100, 1⟩] ∧
    mergeFeeds [[⟨100, 2⟩], [⟨100, 1⟩]] = [⟨100, 2⟩, ⟨100, 1⟩] := by
  refine ⟨?_, by decide, by decide, by decide⟩
  intro feeds h
  exact mergeAux_nonInc _ feeds h

theorem claimC1_merge_order_witness :
    (∀ f ∈ [[⟨10, 30⟩, ⟨8, 28⟩, ⟨5, 25⟩], [⟨9, 29⟩, ⟨7, 27⟩, ⟨6, 26⟩]], NonIncTs f) ∧
    NonIncTs (mergeFeeds [[⟨10, 30⟩, ⟨8, 28⟩, ⟨5, 25⟩], [⟨9, 29⟩, ⟨7, 27⟩, ⟨6, 26⟩]]) :=
  ⟨by decide, claimC1_merge_order.1
    [[⟨10, 30⟩, ⟨8, 28⟩, ⟨5, 25⟩], [⟨9, 29⟩, ⟨7, 27⟩, ⟨6, 26⟩]] (by decide)⟩

/-- C2: evidence of the divergence — a client with an empty cookie jar
and no authkey (no credential at all).  `request_game_record` issues
the HTTP request (`networkCalled = true`) and returns the remote data
instead of raising an authentication error first, because the
`self.cookies is None` guard can never fire; by contrast, the
authkey-guarded families `request_gacha_info` and `request_transaction`
do fail fast without a network call. -/
theorem claimC2_no_failfast_game_record :
    (request_game_record (α := Nat) ⟨[], none, "en-us"⟩ none none none
      (.env ⟨0, "OK", 7⟩)).networkCalled = true ∧
    (request_game_record (α := Nat) ⟨[], none, "en-us"⟩ none none none
      (.env ⟨0, "OK", 7⟩)).result = .ok 7 ∧
    request_gacha_info (α := Nat) ⟨[], none, "en-us"⟩ none (.env ⟨0, "OK", 7⟩) =
      (.error .noAuthkey, false) ∧
    request_transaction (α := Nat) ⟨[], none, "en-us"⟩ none (.env ⟨0, "OK", 7⟩) =
      (.error .noAuthkey, false) :=
  ⟨rfl, rfl, rfl, rfl⟩

/-- C3: `request` returns the `data` field when `retcode == 0` and
otherwise raises an error carrying the remote retcode and message
verbatim, returning no value. -/
theorem claimC3_envelope (α : Type) (e : Envelope α) :
    (e.retcode = 0 → request (.env e) = .ok e.data) ∧
    (e.retcode ≠ 0 → request (.env e) = .error (.remote e.retcode e.message)) := by
  constructor
  · intro h; simp [request, h]
  · intro h; simp [request, h]

theorem claimC3_envelope_witness :
    request (Fetch.env ⟨0, "OK", (42 : Nat)⟩) = .ok 42 ∧
    request (Fetch.env ⟨-1, "err", (0 : Nat)⟩) = .error (.remote (-1) "err") :=
  ⟨(claimC3_envelope Nat ⟨0, "OK", 42⟩).1 rfl,
   (claimC3_envelope Nat ⟨-1, "err", 0⟩).2 (by decide)⟩

/-- C4: the permanent cache of `get_banner_types` and
`_get_transaction_reasons` is keyed by the language only: starting from
an empty cache, the first call invokes the fetch (call index 0) and the
second call with the same language returns the first call's stored
value without a second invocation (`calls` stays 1), even when the
fetch would return something different on a second invocation and even
when the authkey argument differs between the calls. -/
theorem claimC4_permanent_cache (α : Type) (langArg ak1 ak2 : Option String)
    (lang : String) (fetch : Nat → α) :
    (get_banner_types (⟨[], 0⟩ : PermCache α) langArg ak1 fetch).1 = fetch 0 ∧
    (get_banner_types ((get_banner_types (⟨[], 0⟩ : PermCache α) langArg ak1 fetch).2)
      langArg ak2 fetch).1 = fetch 0 ∧
    (get_banner_types ((get_banner_types (⟨[], 0⟩ : PermCache α) langArg ak1 fetch).2)
      langArg ak2 fetch).2.calls = 1 ∧
    (get_transaction_reasons (⟨[], 0⟩ : PermCache α) lang fetch).1 = fetch 0 ∧
    (get_transaction_reasons
      ((get_transaction_reasons (⟨[], 0⟩ : PermCache α) lang fetch).2)
      lang fetch).1 = fetch 0 ∧
    (get_transaction_reasons
      ((get_transaction_reasons (⟨[], 0⟩ : PermCache α) lang fetch).2)
      lang fetch).2.calls = 1 := by
  simp [get_banner_types, get_transaction_reasons, permGetOrCompute, permLookup]

/-- C5: with a caller-supplied non-empty cache tuple and a cache mapping
set, the effective key is the tuple extended with the effective
language as last component; when that exact key is present the stored
value is returned with no HTTP request and the cache unchanged; keys
differing only in the language component are distinct, and storing
under one key does not affect lookups of a different key. -/
theorem claimC5_game_record_cache_key (α : Type) (c : ClientState)
    (m : List (CacheKey × α)) (ks : CacheKey) (langArg : Option String)
    (f : Fetch α) (v : α) (hks : ks ≠ [])
    (hhit : alistLookup m (ks ++ [KeyComp.str (pyOr langArg c.lang)]) = some v) :
    effectiveKey c langArg (some ks) =
      some (ks ++ [KeyComp.str (pyOr langArg c.lang)]) ∧
    request_game_record c (some m) langArg (some ks) f = ⟨.ok v, some m, false⟩ ∧
    (∀ l1 l2 : String, l1 ≠ l2 →
      (ks ++ [KeyComp.str l1] : CacheKey) ≠ ks ++ [KeyComp.str l2]) ∧
    (∀ (k1 k2 : CacheKey) (w : α), k1 ≠ k2 →
      alistLookup (alistInsert m k1 w) k2 = alistLookup m k2) := by
  have hne : ks.isEmpty = false := isEmpty_false_of_ne_nil hks
  have hmne : m ≠ [] := by
    intro hm
    rw [hm] at hhit
    simp [alistLookup] at hhit
  have hmt : mapTruthy (some m) = true := by
    cases m with
    | nil => exact absurd rfl hmne
    | cons p r => rfl
  refine ⟨by simp [effectiveKey, hne], ?_, ?_, ?_⟩
  · simp [request_game_record, grHit_eval c m ks langArg hks, hhit, effectiveKey, hne]
  · intro l1 l2 hl hcontra
    exact hl (by simpa using List.append_inj_right hcontra rfl)
  · intro k1 k2 w hk
    exact alistLookup_insert_ne m k1 k2 w hk

theorem claimC5_game_record_cache_key_witness :
    ([KeyComp.str "user", KeyComp.int 7] : CacheKey) ≠ [] ∧
    alistLookup [([KeyComp.str "user", KeyComp.int 7, KeyComp.str "en-us"], (99 : Nat))]
      ([KeyComp.str "user", KeyComp.int 7] ++
        [KeyComp.str (pyOr none "en-us")]) = some 99 ∧
    request_game_record (α := Nat) ⟨[], none, "en-us"⟩
      (some [([KeyComp.str "user", KeyComp.int 7, KeyComp.str "en-us"], 99)]) none
      (some [KeyComp.str "user", KeyComp.int 7]) (.fail "network down") =
      ⟨.ok 99, some [([KeyComp.str "user", KeyComp.int 7, KeyComp.str "en-us"], 99)],
        false⟩ :=
  ⟨by decide, by decide,
   (claimC5_game_record_cache_key Nat ⟨[], none, "en-us"⟩
     [([KeyComp.str "user", KeyComp.int 7, KeyComp.str "en-us"], 99)]
     [KeyComp.str "user", KeyComp.int 7] none (.fail "network down") 99
     (by decide) (by decide)).2.1⟩

/-- C6: with a non-empty cache tuple whose effective key is not yet
stored, a failing fetch (transport failure or non-zero retcode) leaves
the cache unchanged and stores nothing; an entry is stored only after a
successful fetch, and the stored value equals the returned value. -/
theorem claimC6_cache_only_on_success (α : Type) (c : ClientState)
    (m : List (CacheKey × α)) (ks : CacheKey) (langArg : Option String)
    (hks : ks ≠ [])
    (hmiss : alistLookup m (ks ++ [KeyComp.str (pyOr langArg c.lang)]) = none) :
    (∀ msg : String,
      request_game_record c (some m) langArg (some ks) (.fail msg) =
        ⟨.error (.transport msg), some m, true⟩) ∧
    (∀ e : Envelope α, e.retcode ≠ 0 →
      request_game_record c (some m) langArg (some ks) (.env e) =
        ⟨.error (.remote e.retcode e.message), some m, true⟩) ∧
    (∀ e : Envelope α, e.retcode = 0 →
      request_game_record c (some m) langArg (some ks) (.env e) =
        ⟨.ok e.data,
          some (alistInsert m (ks ++ [KeyComp.str (pyOr langArg c.lang)]) e.data),
          true⟩ ∧
      alistLookup (alistInsert m (ks ++ [KeyComp.str (pyOr langArg c.lang)]) e.data)
        (ks ++ [KeyComp.str (pyOr langArg c.lang)]) = some e.data) := by
  have hne : ks.isEmpty = false := isEmpty_false_of_ne_nil hks
  refine ⟨?_, ?_, ?_⟩
  · intro msg
    simp [request_game_record, grHit_eval c m ks langArg hks, hmiss, effectiveKey,
      hne, keyTruthy, append_singleton_isEmpty, cookiesOpt, request]
  · intro e h0
    simp [request_game_record, grHit_eval c m ks langArg hks, hmiss, effectiveKey,
      hne, keyTruthy, append_singleton_isEmpty, cookiesOpt, request, h0]
  · intro e h0
    refine ⟨?_, alistLookup_insert_self m _ e.data⟩
    simp [request_game_record, grHit_eval c m ks langArg hks, hmiss, effectiveKey,
      hne, keyTruthy, append_singleton_isEmpty, cookiesOpt, request, h0]

theorem claimC6_cache_only_on_success_witness :
    ([KeyComp.str "abyss", KeyComp.int 3] : CacheKey) ≠ [] ∧
    alistLookup ([] : List (CacheKey × Nat))
      ([KeyComp.str "abyss", KeyComp.int 3] ++ [KeyComp.str (pyOr none "en-us")]) =
      none ∧
    request_game_record (α := Nat) ⟨[], none, "en-us"⟩ (some []) none
      (some [KeyComp.str "abyss", KeyComp.int 3]) (.fail "timeout") =
      ⟨.error (.transport "timeout"), some [], true⟩ :=
  ⟨by decide, by decide,
   (claimC6_cache_only_on_success Nat ⟨[], none, "en-us"⟩ []
     [KeyComp.str "abyss", KeyComp.int 3] none (by decide) (by decide)).1 "timeout"⟩

/-- C7: `redeem_code` without an explicit uid submits the code once per
fetched account with level at least 10, in order, as a strictly
sequential event trace in which every submission except the first is
immediately preceded by a single awaited 5-second delay. -/
theorem claimC7_redeem_sequential (accounts : List Account) :
    redeem_code_all accounts =
      specSchedule ((accounts.filter (fun a => 10 ≤ a.level)).map (fun a => a.uid)) ∧
    (redeem_code_all accounts).filterMap
      (fun e => match e with
       | RedeemEvent.submit u => some u
       | RedeemEvent.sleep _ => none) =
      (accounts.filter (fun a => 10 ≤ a.level)).map (fun a => a.uid) := by
  have hmain : redeem_code_all accounts =
      specSchedule ((accounts.filter (fun a => 10 ≤ a.level)).map (fun a => a.uid)) := by
    unfold redeem_code_all
    cases hfil : accounts.filter (fun a => 10 ≤ a.level) with
    | nil => rfl
    | cons a rest =>
      show redeemLoop 0 (a :: rest) = _
      rw [show redeemLoop 0 (a :: rest) =
          RedeemEvent.submit a.uid :: redeemLoop 1 rest from rfl]
      rw [redeemLoop_pos rest 0]
      simp [specSchedule, List.map_map]
      rfl
  refine ⟨hmain, ?_⟩
  rw [hmain]
  exact specSchedule_submits _

/-- C8: `wish_history` and `transaction_log` return the merged
all-categories paginator when the category argument is `None` and the
single-category paginator when it is given; in both cases the paginator
receives the caller's limit (default `None`) and end_id (default 0). -/
theorem claimC8_paginator_dispatch :
    (∀ (limit : Option Nat) (lang authkey : Option String) (end_id : Nat),
      wish_history none limit lang authkey end_id =
        .merged ⟨lang, authkey, limit, end_id⟩ ∧
      (∀ b, wish_history (some b) limit lang authkey end_id =
        .single b ⟨lang, authkey, limit, end_id⟩) ∧
      transaction_log none limit lang authkey end_id =
        .merged ⟨lang, authkey, limit, end_id⟩ ∧
      (∀ k, transaction_log (some k) limit lang authkey end_id =
        .single k ⟨lang, authkey, limit, end_id⟩)) ∧
    wish_history none none none none 0 = .merged ⟨none, none, none, 0⟩ ∧
    transaction_log none none none none 0 = .merged ⟨none, none, none, 0⟩ :=
  ⟨fun _ _ _ _ => ⟨rfl, fun _ => rfl, rfl, fun _ => rfl⟩, rfl, rfl⟩

/-- C9: the `cookies` property always evaluates to a mapping (possibly
empty), never to `None`; consequently the `self.cookies is None` guards
of `request_game_record` and `request_daily_reward` are unreachable and
the "No cookies provided" error is never produced, for every client
state. -/
theorem claimC9_cookies_never_none (c : ClientState) :
    cookiesOpt c = some (cookies c) ∧
    (∀ (α : Type) (cacheMap : Option (List (CacheKey × α))) (langArg : Option String)
      (cacheArg : Option CacheKey) (f : Fetch α),
      (request_game_record c cacheMap langArg cacheArg f).result ≠
        .error .noCookies) ∧
    (∀ (α : Type) (f : Fetch α),
      (request_daily_reward c f).1 ≠ .error .noCookies) := by
  have hreq : ∀ (α : Type) (f : Fetch α), request f ≠ .error .noCookies := by
    intro α f
    cases f with
    | fail m => simp [request]
    | env e =>
      by_cases h0 : e.retcode = 0
      · simp [request, h0]
      · simp [request, h0]
  refine ⟨rfl, ?_, ?_⟩
  · intro α cacheMap langArg cacheArg f
    unfold request_game_record
    cases hhit : grHit c cacheMap langArg cacheArg with
    | some v => simp [hhit]
    | none =>
      simp only [hhit, cookiesOpt]
      cases hr : request f with
      | error e =>
        simp only [hr]
        intro hcontra
        exact hreq α f (hr.trans hcontra)
      | ok v =>
        simp only [hr]
        intro hcontra
        exact Except.noConfusion hcontra
  · intro α f
    unfold request_daily_reward
    simp only [cookiesOpt]
    exact fun h => hreq α f h

theorem claimC9_cookies_never_none_witness :
    cookiesOpt ⟨[], none, "en-us"⟩ = some (cookies ⟨[], none, "en-us"⟩) ∧
    (request_game_record (α := Nat) ⟨[], none, "en-us"⟩ none none none
      (.env ⟨0, "OK", 1⟩)).result ≠ .error .noCookies ∧
    (request_daily_reward (α := Nat) ⟨[], none, "en-us"⟩
      (.env ⟨0, "OK", 1⟩)).1 ≠ .error .noCookies :=
  ⟨(claimC9_cookies_never_none ⟨[], none, "en-us"⟩).1,
   (claimC9_cookies_never_none ⟨[], none, "en-us"⟩).2.1 Nat none none none
     (.env ⟨0, "OK", 1⟩),
   (claimC9_cookies_never_none ⟨[], none, "en-us"⟩).2.2 Nat (.env ⟨0, "OK", 1⟩)⟩

/-- C10: `hoyolab_uid` returns the integer value of the first cookie in
the session jar whose key is `ltuid` or `account_id`, and returns
`None` without raising when no such cookie exists. -/
theorem claimC10_hoyolab_uid (c : ClientState) :
    (c.jar.find? (fun ck => ck.key == "ltuid" || ck.key == "account_id") = none →
      hoyolab_uid c = .ok none) ∧
    (∀ (ck : Cookie) (n : Int),
      c.jar.find? (fun ck => ck.key == "ltuid" || ck.key == "account_id") = some ck →
      pyInt ck.value = some n → hoyolab_uid c = .ok (some n)) := by
  constructor
  · intro h
    simp [hoyolab_uid, h]
  · intro ck n h1 h2
    simp [hoyolab_uid, h1, h2]

theorem claimC10_hoyolab_uid_witness :
    ((⟨[⟨"mi18nLang", "en"⟩], none, "en-us"⟩ : ClientState).jar.find?
      (fun ck => ck.key == "ltuid" || ck.key == "account_id") = none ∧
      hoyolab_uid ⟨[⟨"mi18nLang", "en"⟩], none, "en-us"⟩ = .ok none) ∧
    (hoyolab_uid ⟨[⟨"mi18nLang", "en"⟩, ⟨"ltuid", "123"⟩, ⟨"account_id", "456"⟩],
      none, "en-us"⟩ = .ok (some 123)) :=
  ⟨⟨by decide, (claimC10_hoyolab_uid ⟨[⟨"mi18nLang", "en"⟩], none, "en-us"⟩).1
      (by decide)⟩,
   (claimC10_hoyolab_uid
     ⟨[⟨"mi18nLang", "en"⟩, ⟨"ltuid", "123"⟩, ⟨"account_id", "456"⟩], none, "en-us"⟩).2
     ⟨"ltuid", "123"⟩ 123 (by decide) (by decide)⟩

end Genshin

